import Mathlib

/-!
Verification of the pastella-utils transaction and sync engine against its
specification.  The TypeScript/JavaScript sources are shallowly embedded:
byte strings become `List Nat` (each entry a byte value), JavaScript numbers
become `Nat` or `Int` with the 32-bit wrapping of JavaScript bitwise
operators made explicit, `Map`s become association lists in insertion order,
and fallible code returns `Option`.
-/

/-! ## Bit-level helpers shared by the embeddings -/

/-- Little-endian base-256 value of a byte list (arithmetic reference form
used to state properties about the bitwise accumulation loops). -/
def leBytesVal : List Nat → Nat
  | [] => 0
  | b :: rest => b + 256 * leBytesVal rest

theorem and127_eq_mod (a : Nat) : a &&& 127 = a % 128 := by
  have h := Nat.and_pow_two_sub_one_eq_mod a 7
  norm_num at h
  exact h

theorem shiftRight7_eq_div (a : Nat) : a >>> 7 = a / 128 := by
  have h := Nat.shiftRight_eq_div_pow a 7
  norm_num at h
  exact h

theorem lor128_eq_add (a : Nat) (h : a < 128) : a ||| 128 = a + 128 := by
  have h2 : (2 : Nat) ^ 7 * 1 + a = 2 ^ 7 * 1 ||| a := Nat.mul_add_lt_is_or (by omega) 1
  have h3 : (128 : Nat) ||| a = 128 + a := by
    have : (2 : Nat) ^ 7 * 1 = 128 := by norm_num
    rw [this] at h2
    omega
  rw [Nat.lor_comm]
  omega

theorem and128_of_lt (a : Nat) (h : a < 128) : a &&& 128 = 0 := by
  have h1 : a &&& 2 ^ 7 = (a.testBit 7).toNat * 2 ^ 7 := Nat.and_two_pow a 7
  have h2 : a.testBit 7 = decide (a / 2 ^ 7 % 2 = 1) := Nat.testBit_to_div_mod
  have h3 : a / 2 ^ 7 = 0 := by
    apply Nat.div_eq_of_lt
    norm_num
    omega
  rw [h3] at h2
  simp at h2
  rw [h2] at h1
  simpa using h1

theorem and128_of_ge (a : Nat) (hlo : 128 ≤ a) (hhi : a < 256) : a &&& 128 = 128 := by
  have h1 : a &&& 2 ^ 7 = (a.testBit 7).toNat * 2 ^ 7 := Nat.and_two_pow a 7
  have h2 : a.testBit 7 = decide (a / 2 ^ 7 % 2 = 1) := Nat.testBit_to_div_mod
  have h3 : a / 2 ^ 7 = 1 := by
    norm_num
    omega
  rw [h3] at h2
  simp at h2
  rw [h2] at h1
  simpa using h1

/-! ## Varint codec of the transaction module

`writeVarint` (transaction module): pushes `(remaining & 0x7f) | 0x80` while
`remaining >= 0x80` shifting right by 7 each round, then pushes the final
`remaining & 0x7f` byte without the continuation bit. -/

def writeVarint (value : Nat) : List Nat :=
  if value < 128 then [value &&& 127]
  else ((value &&& 127) ||| 128) :: writeVarint (value >>> 7)
decreasing_by
  rw [shiftRight7_eq_div]
  exact Nat.div_lt_self (by omega) (by omega)

theorem writeVarint_eq_arith (value : Nat) :
    writeVarint value =
      if value < 128 then [value]
      else (value % 128 + 128) :: writeVarint (value / 128) := by
  rw [writeVarint]
  by_cases h : value < 128
  · simp only [if_pos h, and127_eq_mod]
    rw [Nat.mod_eq_of_lt h]
  · simp only [if_neg h, and127_eq_mod, shiftRight7_eq_div,
      lor128_eq_add (value % 128) (Nat.mod_lt value (by omega))]

/-- Mathematical little-endian base-128 payload value of a varint byte
sequence (the reference decoder used to state canonicity). -/
def varintValue : List Nat → Nat
  | [] => 0
  | b :: rest => b % 128 + 128 * varintValue rest

theorem varintValue_writeVarint (value : Nat) :
    varintValue (writeVarint value) = value := by
  induction value using Nat.strong_induction_on with
  | _ value ih =>
    rw [writeVarint_eq_arith]
    by_cases h : value < 128
    · simp [varintValue, if_pos h, Nat.mod_eq_of_lt h]
    · simp only [if_neg h, varintValue]
      rw [ih (value / 128) (Nat.div_lt_self (by omega) (by omega))]
      omega

theorem varintValue_lt (bs : List Nat) : varintValue bs < 128 ^ bs.length := by
  induction bs with
  | nil => simp [varintValue]
  | cons b rest ih =>
    simp only [varintValue, List.length_cons, pow_succ]
    have hb : b % 128 < 128 := Nat.mod_lt b (by omega)
    calc b % 128 + 128 * varintValue rest
        < 128 + 128 * varintValue rest := by omega
      _ ≤ 128 * 128 ^ rest.length := by
          have := ih
          omega
      _ = 128 ^ rest.length * 128 := by ring

theorem writeVarint_length_le (value : Nat) :
    128 ^ ((writeVarint value).length - 1) ≤ max value 1 := by
  induction value using Nat.strong_induction_on with
  | _ value ih =>
    rw [writeVarint_eq_arith]
    by_cases h : value < 128
    · rw [if_pos h]
      norm_num
    · simp only [if_neg h, List.length_cons]
      have hrec := ih (value / 128) (Nat.div_lt_self (by omega) (by omega))
      have hq : 1 ≤ value / 128 := Nat.one_le_div_iff (by omega) |>.mpr (by omega)
      have hmax : max (value / 128) 1 = value / 128 := by omega
      rw [hmax] at hrec
      have hlen : (writeVarint (value / 128)).length ≥ 1 := by
        rw [writeVarint_eq_arith]
        by_cases h2 : value / 128 < 128 <;> simp [h2]
      have : 128 ^ ((writeVarint (value / 128)).length - 1 + 1) ≤ value := by
        rw [pow_succ]
        calc 128 ^ ((writeVarint (value / 128)).length - 1) * 128
            ≤ value / 128 * 128 := by
              exact Nat.mul_le_mul_right 128 hrec
          _ ≤ value := by
              have := Nat.div_mul_le_self value 128
              omega
      have heq : (writeVarint (value / 128)).length + 1 - 1
          = (writeVarint (value / 128)).length - 1 + 1 := by omega
      rw [heq]
      omega

/-- The encoder is minimal: no shorter nonempty base-128 byte sequence has
the same payload value. -/
theorem writeVarint_minimal (value : Nat) (bs : List Nat) (hne : bs ≠ [])
    (hv : varintValue bs = value) :
    (writeVarint value).length ≤ bs.length := by
  have h1 := writeVarint_length_le value
  have h2 := varintValue_lt bs
  rw [hv] at h2
  by_contra hlt
  push_neg at hlt
  have hbs1 : 1 ≤ bs.length := by
    cases bs with
    | nil => exact absurd rfl hne
    | cons a t => simp
  have hle : bs.length ≤ (writeVarint value).length - 1 := by omega
  have hpow : (128 : Nat) ^ bs.length ≤ 128 ^ ((writeVarint value).length - 1) :=
    Nat.pow_le_pow_right (by omega) hle
  have : (128 : Nat) ^ bs.length ≤ max value 1 := le_trans hpow h1
  have hv128 : value < 128 ^ bs.length := h2
  have : (128 : Nat) ^ 1 ≤ 128 ^ bs.length := Nat.pow_le_pow_right (by omega) hbs1
  omega

theorem writeVarint_continuation_shape (value : Nat) :
    (∀ i, i + 1 < (writeVarint value).length → 128 ≤ (writeVarint value).getD i 0) ∧
    (writeVarint value).getD ((writeVarint value).length - 1) 0 < 128 := by
  induction value using Nat.strong_induction_on with
  | _ value ih =>
    rw [writeVarint_eq_arith]
    by_cases h : value < 128
    · simp only [if_pos h]
      constructor
      · intro i hi
        simp at hi
      · simpa using h
    · simp only [if_neg h]
      have hrec := ih (value / 128) (Nat.div_lt_self (by omega) (by omega))
      have hlen : 1 ≤ (writeVarint (value / 128)).length := by
        rw [writeVarint_eq_arith]
        by_cases h2 : value / 128 < 128 <;> simp [h2]
      constructor
      · intro i hi
        cases i with
        | zero =>
          simp
        | succ j =>
          simp only [List.length_cons] at hi
          simp only [List.getD_cons_succ]
          exact hrec.1 j (by omega)
      · simp only [List.length_cons]
        have heq : (writeVarint (value / 128)).length + 1 - 1
            = ((writeVarint (value / 128)).length - 1) + 1 := by omega
        rw [heq, List.getD_cons_succ]
        exact hrec.2

/-! ## JavaScript 32-bit bitwise semantics

`decodeVarint` in the transaction module accumulates with `value |= (byte &
0x7f) << shift` on JavaScript numbers, whose `|` and `<<` coerce through
signed 32-bit integers (shift counts are taken mod 32). -/

def toUint32 (x : Int) : Nat := (x % 4294967296).toNat

def toInt32 (x : Int) : Int :=
  if toUint32 x < 2147483648 then (toUint32 x : Int) else (toUint32 x : Int) - 4294967296

def jsShl32 (x : Int) (s : Nat) : Int := toInt32 (x * 2 ^ (s % 32))

def jsOr32 (x y : Int) : Int := toInt32 ((toUint32 x ||| toUint32 y : Nat) : Int)

/-- decodeVarint loop body of the transaction module: reads bytes until one
without the continuation bit, producing the accumulated value and count. -/
def decodeVarintLoop : List Nat → Int → Nat → Nat → Int × Nat
  | [], value, _shift, bytesRead => (value, bytesRead)
  | b :: rest, value, shift, bytesRead =>
    let v2 := jsOr32 value (jsShl32 ((b &&& 127 : Nat) : Int) shift)
    if b &&& 128 == 0 then (v2, bytesRead + 1)
    else decodeVarintLoop rest v2 (shift + 7) (bytesRead + 1)

def decodeVarint (bytes : List Nat) (offset : Nat) : Int × Nat :=
  decodeVarintLoop (bytes.drop offset) 0 0 0

theorem toUint32_natCast (m : Nat) (h : m < 4294967296) : toUint32 (m : Int) = m := by
  unfold toUint32
  rw [Int.emod_eq_of_lt (by positivity) (by exact_mod_cast h)]
  simp

theorem toInt32_natCast (m : Nat) (h : m < 2147483648) : toInt32 (m : Int) = (m : Int) := by
  unfold toInt32
  rw [toUint32_natCast m (by omega)]
  simp [h]

theorem jsOrShl_eq (acc chunk shift : Nat) (hshift : shift < 32)
    (hacc : acc < 2 ^ shift) (hsum : acc + chunk * 2 ^ shift < 2147483648) :
    jsOr32 (acc : Int) (jsShl32 (chunk : Int) shift)
      = ((acc + chunk * 2 ^ shift : Nat) : Int) := by
  have hmod : shift % 32 = shift := Nat.mod_eq_of_lt hshift
  have hc : chunk * 2 ^ shift < 2147483648 := by omega
  have hacc31 : acc < 2147483648 := by omega
  have hshl : jsShl32 (chunk : Int) shift = ((chunk * 2 ^ shift : Nat) : Int) := by
    unfold jsShl32
    rw [hmod]
    have hcast : (chunk : Int) * 2 ^ shift = ((chunk * 2 ^ shift : Nat) : Int) := by
      push_cast
      ring
    rw [hcast, toInt32_natCast _ hc]
  rw [hshl]
  unfold jsOr32
  rw [toUint32_natCast acc (by omega), toUint32_natCast _ (by omega)]
  have hor : acc ||| chunk * 2 ^ shift = acc + chunk * 2 ^ shift := by
    have h1 : 2 ^ shift * chunk + acc = 2 ^ shift * chunk ||| acc :=
      Nat.mul_add_lt_is_or hacc chunk
    rw [Nat.lor_comm]
    rw [Nat.mul_comm] at h1
    omega
  rw [hor, toInt32_natCast _ hsum]

theorem decodeVarintLoop_writeVarint (value : Nat) :
    ∀ acc shift k, shift < 32 → acc < 2 ^ shift →
    acc + value * 2 ^ shift < 2147483648 →
    decodeVarintLoop (writeVarint value) (acc : Int) shift k
      = (((acc + value * 2 ^ shift : Nat) : Int), k + (writeVarint value).length) := by
  induction value using Nat.strong_induction_on with
  | _ value ih =>
    intro acc shift k hshift hacc hsum
    rw [writeVarint_eq_arith]
    by_cases h : value < 128
    · simp only [if_pos h, decodeVarintLoop]
      rw [and127_eq_mod, Nat.mod_eq_of_lt h]
      rw [jsOrShl_eq acc value shift hshift hacc hsum]
      rw [and128_of_lt value h]
      simp
    · simp only [if_neg h, decodeVarintLoop]
      have hmod128 : (value % 128 + 128) &&& 127 = value % 128 := by
        rw [and127_eq_mod]
        omega
      have hcont : (value % 128 + 128) &&& 128 = 128 := by
        apply and128_of_ge
        · omega
        · have := Nat.mod_lt value (show 0 < 128 by omega)
          omega
      rw [hmod128, hcont]
      have hchunk : value % 128 < 128 := Nat.mod_lt value (by omega)
      have hstep : acc + value % 128 * 2 ^ shift ≤ acc + value * 2 ^ shift := by
        have : value % 128 ≤ value := Nat.mod_le value 128
        exact Nat.add_le_add_left (Nat.mul_le_mul_right _ this) acc
      rw [jsOrShl_eq acc (value % 128) shift hshift hacc (by omega)]
      simp only [if_neg (show ¬ ((128 : Nat) == 0) = true by decide)]
      have hv : 128 * (value / 128) + value % 128 = value := Nat.div_add_mod value 128
      have hpow7 : (2 : Nat) ^ (shift + 7) = 2 ^ shift * 128 := by
        rw [pow_add]
        norm_num
      have hshift7 : shift + 7 < 32 := by
        by_contra hge
        push_neg at hge
        have h31 : 31 ≤ shift + 7 := by omega
        have hp : (2 : Nat) ^ 31 ≤ 2 ^ (shift + 7) := Nat.pow_le_pow_right (by omega) h31
        have hvlarge : 2 ^ (shift + 7) ≤ value * 2 ^ shift := by
          rw [hpow7]
          calc 2 ^ shift * 128 = 128 * 2 ^ shift := by ring
            _ ≤ value * 2 ^ shift := Nat.mul_le_mul_right _ (by omega)
        have : (2 : Nat) ^ 31 = 2147483648 := by norm_num
        omega
      have hacc2 : acc + value % 128 * 2 ^ shift < 2 ^ (shift + 7) := by
        rw [hpow7]
        have : value % 128 * 2 ^ shift ≤ 127 * 2 ^ shift :=
          Nat.mul_le_mul_right _ (by omega)
        nlinarith [pow_pos (show 0 < 2 by omega) shift]
      have hkey : acc + value % 128 * 2 ^ shift + value / 128 * 2 ^ (shift + 7)
          = acc + value * 2 ^ shift := by
        rw [hpow7]
        calc acc + value % 128 * 2 ^ shift + value / 128 * (2 ^ shift * 128)
            = acc + (128 * (value / 128) + value % 128) * 2 ^ shift := by ring
          _ = acc + value * 2 ^ shift := by rw [hv]
      have hrec := ih (value / 128) (Nat.div_lt_self (by omega) (by omega))
        (acc + value % 128 * 2 ^ shift) (shift + 7) (k + 1) hshift7 hacc2
        (by rw [hkey]; exact hsum)
      rw [hrec, hkey]
      simp only [List.length_cons]
      have hk : k + 1 + (writeVarint (value / 128)).length
          = k + ((writeVarint (value / 128)).length + 1) := by omega
      rw [hk]

theorem decodeVarint_writeVarint (value : Nat) (h : value < 2147483648) :
    decodeVarint (writeVarint value) 0 = ((value : Int), (writeVarint value).length) := by
  unfold decodeVarint
  rw [List.drop_zero]
  have h0 : ((0 : Nat) : Int) = (0 : Int) := by norm_num
  rw [← h0]
  rw [decodeVarintLoop_writeVarint value 0 0 0 (by omega) (by norm_num) (by simpa using h)]
  simp

/-! ## Varint writer of the staking module

`writeVarint` in `staking.js` is a do-while loop guarded by
`remaining >= 0x80` after the 7-bit shift, followed by clearing the
continuation bit of the last emitted byte. -/

def stakingVarintLoop (remaining : Nat) : List Nat :=
  ((remaining &&& 127) ||| 128) ::
    (if h : 128 ≤ remaining >>> 7 then stakingVarintLoop (remaining >>> 7) else [])
decreasing_by
  rw [shiftRight7_eq_div] at h ⊢
  exact Nat.div_lt_self (by omega) (by omega)

def clearTopBitLast : List Nat → List Nat
  | [] => []
  | [b] => [b &&& 127]
  | b :: c :: rest => b :: clearTopBitLast (c :: rest)

def stakingWriteVarint (value : Nat) : List Nat :=
  clearTopBitLast (stakingVarintLoop value)

/-- createStakingExtra from `staking.js`: staking TLV tag 0x04, then
stakingType 101, amount, unlockTime and lockDurationDays as varints written
by the staking module writer, then the 64-byte signature. -/
def createStakingExtra (amount unlockTime lockDurationDays : Nat)
    (signature : List Nat) : Option (List Nat) :=
  if signature.length ≠ 64 then none
  else some ([4] ++ stakingWriteVarint 101 ++ stakingWriteVarint amount
    ++ stakingWriteVarint unlockTime ++ stakingWriteVarint lockDurationDays
    ++ signature)

theorem writeVarint_128 : writeVarint 128 = [128, 1] := by
  simp [writeVarint_eq_arith]

theorem writeVarint_518785 : writeVarint 518785 = [129, 213, 31] := by
  simp [writeVarint_eq_arith]

theorem stakingVarintLoop_eq_arith (remaining : Nat) :
    stakingVarintLoop remaining = (remaining % 128 + 128) ::
      (if 128 ≤ remaining / 128 then stakingVarintLoop (remaining / 128) else []) := by
  rw [stakingVarintLoop, and127_eq_mod,
    lor128_eq_add (remaining % 128) (Nat.mod_lt remaining (by omega)), shiftRight7_eq_div]
  simp

/-- C3: the module-level writeVarint of staking.js truncates: at 128 it
emits [0x00] where the canonical encoder of the transaction module emits
[0x80, 0x01], so the two are not equal as functions and createStakingExtra
embeds the wrong bytes. -/
theorem stakingWriteVarint_bug_at_128 :
    stakingWriteVarint 128 = [0] ∧ writeVarint 128 = [128, 1] ∧
    stakingWriteVarint 128 ≠ writeVarint 128 ∧
    createStakingExtra 128 0 0 (List.replicate 64 0)
      = some ([4, 101, 0, 0, 0] ++ List.replicate 64 0) := by
  have h1 : stakingWriteVarint 128 = [0] := by
    unfold stakingWriteVarint
    simp [stakingVarintLoop_eq_arith]
    decide
  have h101 : stakingWriteVarint 101 = [101] := by
    unfold stakingWriteVarint
    simp [stakingVarintLoop_eq_arith]
    decide
  have h0 : stakingWriteVarint 0 = [0] := by
    unfold stakingWriteVarint
    simp [stakingVarintLoop_eq_arith]
    decide
  refine ⟨h1, writeVarint_128, ?_, ?_⟩
  · rw [h1, writeVarint_128]
    decide
  · unfold createStakingExtra
    rw [h1, h101, h0]
    norm_num

/-- C2 (amended): the transaction-module varint codec round-trips for every
value below 2^31 (the JavaScript decoder accumulates through signed 32-bit
bitwise operators, so larger values wrap); the encoder always emits the
value-correct, minimal-length, well-formed base-128 little-endian encoding;
and the S1 vectors hold except that encode(518785) is [0x81, 0xD5, 0x1F]. -/
theorem varint_codec_roundtrip_canonical :
    (∀ n : Nat, n < 2147483648 → (decodeVarint (writeVarint n) 0).1 = (n : Int)) ∧
    (∀ n : Nat, varintValue (writeVarint n) = n) ∧
    (∀ n : Nat, ∀ bs : List Nat, bs ≠ [] → varintValue bs = n →
      (writeVarint n).length ≤ bs.length) ∧
    (∀ n : Nat, (∀ i, i + 1 < (writeVarint n).length → 128 ≤ (writeVarint n).getD i 0) ∧
      (writeVarint n).getD ((writeVarint n).length - 1) 0 < 128) ∧
    writeVarint 0 = [0x00] ∧ writeVarint 127 = [0x7F] ∧
    writeVarint 128 = [0x80, 0x01] ∧ writeVarint 518785 = [0x81, 0xD5, 0x1F] ∧
    writeVarint 16383 = [0xFF, 0x7F] := by
  refine ⟨?_, varintValue_writeVarint, writeVarint_minimal,
    writeVarint_continuation_shape, ?_, ?_, writeVarint_128, writeVarint_518785, ?_⟩
  · intro n hn
    rw [decodeVarint_writeVarint n hn]
  · simp [writeVarint_eq_arith]
  · simp [writeVarint_eq_arith]
  · simp [writeVarint_eq_arith]

theorem varint_codec_roundtrip_canonical_witness :
    518785 < 2147483648 ∧ (decodeVarint (writeVarint 518785) 0).1 = (518785 : Int) :=
  ⟨by norm_num, varint_codec_roundtrip_canonical.1 518785 (by norm_num)⟩

/-- C2 counterexample: the claimed S1 vector for 518785 is not this codec's
encoding, and the round trip fails at 2^31 where the decoder's 32-bit
accumulation wraps to a negative value. -/
theorem varint_claim_counterexample :
    writeVarint 518785 ≠ [0x81, 0xB5, 0x1F] ∧
    (decodeVarint (writeVarint 2147483648) 0).1 ≠ ((2147483648 : Nat) : Int) := by
  have h2 : writeVarint 2147483648 = [128, 128, 128, 128, 8] := by
    simp [writeVarint_eq_arith]
  constructor
  · rw [writeVarint_518785]
    decide
  · rw [h2]
    decide

/-! ## UTXO tracker state and balances (walletSync-balance.js)

Tracker maps become association lists in insertion order; the optional
`spentHeight` field keeps JavaScript truthiness (`!o.spentHeight` treats both
an absent field and 0 as unspent). -/

def MATURITY_BLOCKS : Nat := 10

def UNLOCK_TIME_TIMESTAMP_THRESHOLD : Nat := 500000000

def MIN_FEE : Nat := 1000

structure WalletOutput where
  key : String
  amount : Nat
  blockHeight : Nat
  timestamp : Nat
  transactionHash : String
  transactionIndex : Nat
  outputIndex : Option Nat
  unlockTime : Nat
  spentHeight : Option Nat
  isStaking : Bool
deriving DecidableEq

structure WalletSpend where
  amount : Nat
  parentTransactionHash : String
  transactionIndex : Nat
  blockHeight : Nat
  timestamp : Nat
  spendingTxHash : String
deriving DecidableEq

structure SyncedBlockInfo where
  blockHeight : Nat
  blockHash : String
  timestamp : Nat
  transactions : List String
deriving DecidableEq

/-- JavaScript truthiness of an optional numeric field: absent and 0 are
both falsy. -/
def jsTruthyNum : Option Nat → Bool
  | none => false
  | some n => n != 0

/-- isOutputSpendable from walletSync-utils: block maturity, then the
height-or-timestamp unlock rule.  The current wall-clock second is passed
explicitly; the `blockTimestamp` argument is unused, as in the source. -/
def isOutputSpendable (blockHeight unlockTime _blockTimestamp currentHeight nowSec : Nat) :
    Bool :=
  let maturityMet := decide ((blockHeight : Int) ≤ (currentHeight : Int) - (MATURITY_BLOCKS : Int))
  if !maturityMet then false
  else if unlockTime == 0 then true
  else if unlockTime < UNLOCK_TIME_TIMESTAMP_THRESHOLD then decide (unlockTime ≤ currentHeight)
  else decide (unlockTime ≤ nowSec)

structure ProcessingContext where
  outputs : List (String × WalletOutput)
  spends : List (String × WalletSpend)
  stakingTxHashes : List String
  currentHeight : Nat

structure Balances where
  available : Nat
  locked : Nat
  stakingLocked : Nat
deriving DecidableEq

/-- One iteration of the recalculateBalances loop over the outputs map:
skip spent outputs, credit `available` when the maturity and unlock checks
pass, otherwise `stakingLocked` for staking outputs and `locked` for the
rest. -/
def balanceStep (stakingTxHashes : List String) (currentHeight nowSec : Nat)
    (bal : Balances) (kv : String × WalletOutput) : Balances :=
  if jsTruthyNum kv.2.spentHeight then bal
  else if isOutputSpendable kv.2.blockHeight kv.2.unlockTime 0 currentHeight nowSec then
    { bal with available := bal.available + kv.2.amount }
  else if kv.2.isStaking || stakingTxHashes.contains kv.2.transactionHash then
    { bal with stakingLocked := bal.stakingLocked + kv.2.amount }
  else { bal with locked := bal.locked + kv.2.amount }

/-- recalculateBalances: walk every tracked output, skip spent ones, and
split the unspent ones into available / locked / stakingLocked. -/
def recalculateBalances (ctx : ProcessingContext) (nowSec : Nat) : Balances :=
  ctx.outputs.foldl (balanceStep ctx.stakingTxHashes ctx.currentHeight nowSec) ⟨0, 0, 0⟩

/-- Total amount over outputs the balance loop treats as unspent. -/
def unspentTotal (outputs : List (String × WalletOutput)) : Nat :=
  ((outputs.filter (fun kv => ! jsTruthyNum kv.2.spentHeight)).map
    (fun kv => kv.2.amount)).sum

theorem balanceStep_total (stakingTxHashes : List String) (currentHeight nowSec : Nat)
    (bal : Balances) (kv : String × WalletOutput) :
    (balanceStep stakingTxHashes currentHeight nowSec bal kv).available
      + (balanceStep stakingTxHashes currentHeight nowSec bal kv).locked
      + (balanceStep stakingTxHashes currentHeight nowSec bal kv).stakingLocked
      = bal.available + bal.locked + bal.stakingLocked
        + (if jsTruthyNum kv.2.spentHeight then 0 else kv.2.amount) := by
  unfold balanceStep
  by_cases h1 : jsTruthyNum kv.2.spentHeight = true
  · simp [h1]
  · have h1f : jsTruthyNum kv.2.spentHeight = false := by
      simpa using h1
    by_cases h2 : isOutputSpendable kv.2.blockHeight kv.2.unlockTime 0 currentHeight nowSec
      = true
    · simp [h1f, h2]
      omega
    · have h2f : isOutputSpendable kv.2.blockHeight kv.2.unlockTime 0 currentHeight nowSec
          = false := by simpa using h2
      by_cases h3 : (kv.2.isStaking = true ∨ kv.2.transactionHash ∈ stakingTxHashes)
      · simp [h1f, h2f, h3]
        omega
      · simp [h1f, h2f, h3]
        omega

theorem balanceFold_total (stakingTxHashes : List String) (currentHeight nowSec : Nat)
    (l : List (String × WalletOutput)) :
    ∀ bal : Balances,
      (l.foldl (balanceStep stakingTxHashes currentHeight nowSec) bal).available
        + (l.foldl (balanceStep stakingTxHashes currentHeight nowSec) bal).locked
        + (l.foldl (balanceStep stakingTxHashes currentHeight nowSec) bal).stakingLocked
        = bal.available + bal.locked + bal.stakingLocked + unspentTotal l := by
  induction l with
  | nil => intro bal; simp [unspentTotal]
  | cons kv rest ih =>
    intro bal
    simp only [List.foldl_cons]
    rw [ih (balanceStep stakingTxHashes currentHeight nowSec bal kv)]
    rw [balanceStep_total]
    unfold unspentTotal
    by_cases h : jsTruthyNum kv.2.spentHeight
    · simp [h]
    · simp [h]
      omega

/-- C6: in every tracker state the three balance figures returned by
recalculateBalances partition the unspent wealth: available + locked +
stakingLocked equals the sum of amounts over all outputs whose spentHeight
is unset, each unspent output landing in exactly one bucket. -/
theorem recalculateBalances_partition (ctx : ProcessingContext) (nowSec : Nat) :
    (recalculateBalances ctx nowSec).available + (recalculateBalances ctx nowSec).locked
      + (recalculateBalances ctx nowSec).stakingLocked = unspentTotal ctx.outputs := by
  unfold recalculateBalances
  rw [balanceFold_total]
  simp

/-! ## Fork rollback (handleFork in walletSync-balance.js) -/

/-- handleFork: delete synced blocks, outputs, spends and checkpoints at or
above the fork height and reset the current height to `max 0 (forkHeight -
1)`.  JavaScript Map deletion during iteration behaves as a filter. -/
def handleFork (forkHeight : Nat) (ctx : ProcessingContext)
    (syncedBlocks : List (Nat × SyncedBlockInfo))
    (blockCheckpoints : List (Nat × String)) :
    ProcessingContext × List (Nat × SyncedBlockInfo) × List (Nat × String) :=
  ({ ctx with
      outputs := ctx.outputs.filter (fun kv => decide (kv.2.blockHeight < forkHeight))
      spends := ctx.spends.filter (fun kv => decide (kv.2.blockHeight < forkHeight))
      currentHeight := (max 0 ((forkHeight : Int) - 1)).toNat },
   syncedBlocks.filter (fun kv => decide (kv.1 < forkHeight)),
   blockCheckpoints.filter (fun kv => decide (kv.1 < forkHeight)))

/-- C7: after handleFork(h) no WalletOutput, WalletSpend, SyncedBlock or
checkpoint at height ≥ h remains, and the current height is h − 1 (with
natural-number truncation at h = 0, matching `Math.max(0, h - 1)`). -/
theorem handleFork_rollback (forkHeight : Nat) (ctx : ProcessingContext)
    (syncedBlocks : List (Nat × SyncedBlockInfo))
    (blockCheckpoints : List (Nat × String)) :
    (∀ kv ∈ (handleFork forkHeight ctx syncedBlocks blockCheckpoints).1.outputs,
        kv.2.blockHeight < forkHeight) ∧
    (∀ kv ∈ (handleFork forkHeight ctx syncedBlocks blockCheckpoints).1.spends,
        kv.2.blockHeight < forkHeight) ∧
    (∀ kv ∈ (handleFork forkHeight ctx syncedBlocks blockCheckpoints).2.1,
        kv.1 < forkHeight) ∧
    (∀ kv ∈ (handleFork forkHeight ctx syncedBlocks blockCheckpoints).2.2,
        kv.1 < forkHeight) ∧
    (handleFork forkHeight ctx syncedBlocks blockCheckpoints).1.currentHeight
      = forkHeight - 1 := by
  unfold handleFork
  refine ⟨?_, ?_, ?_, ?_, ?_⟩
  · intro kv hkv
    simp only [List.mem_filter, decide_eq_true_eq] at hkv
    exact hkv.2
  · intro kv hkv
    simp only [List.mem_filter, decide_eq_true_eq] at hkv
    exact hkv.2
  · intro kv hkv
    simp only [List.mem_filter, decide_eq_true_eq] at hkv
    exact hkv.2
  · intro kv hkv
    simp only [List.mem_filter, decide_eq_true_eq] at hkv
    exact hkv.2
  · simp only []
    omega

def outputExample : WalletOutput :=
  { key := "k", amount := 100, blockHeight := 3, timestamp := 0,
    transactionHash := "t", transactionIndex := 0, outputIndex := some 0,
    unlockTime := 0, spentHeight := some 7, isStaking := false }

def ctxExample : ProcessingContext :=
  { outputs := [("t:0", outputExample)], spends := [], stakingTxHashes := [],
    currentHeight := 7 }

theorem handleFork_rollback_witness :
    (handleFork 5 ctxExample [] []).1.currentHeight = 4 :=
  (handleFork_rollback 5 ctxExample [] []).2.2.2.2

theorem balanceFold_erase_spent (stakingTxHashes : List String)
    (currentHeight nowSec : Nat) (kv : String × WalletOutput)
    (hspent : jsTruthyNum kv.2.spentHeight = true) (l : List (String × WalletOutput)) :
    ∀ bal : Balances,
      l.foldl (balanceStep stakingTxHashes currentHeight nowSec) bal
        = (l.erase kv).foldl (balanceStep stakingTxHashes currentHeight nowSec) bal := by
  induction l with
  | nil => intro bal; rfl
  | cons hd tl ih =>
    intro bal
    rw [List.erase_cons]
    by_cases he : hd = kv
    · have hbeq : (hd == kv) = true := by simp [he]
      rw [if_pos hbeq, List.foldl_cons]
      have hstep : balanceStep stakingTxHashes currentHeight nowSec bal hd = bal := by
        rw [he]
        unfold balanceStep
        rw [if_pos hspent]
      rw [hstep]
    · have hbeq : (hd == kv) = false := by simp [he]
      rw [if_neg (by simp [hbeq]), List.foldl_cons, List.foldl_cons]
      exact ih (balanceStep stakingTxHashes currentHeight nowSec bal hd)

/-- C10: handleFork leaves outputs created below the fork height untouched
(in particular their spentHeight), and an output still marked spent
contributes to none of the three balances afterwards: removing it from the
post-fork output map does not change recalculateBalances. -/
theorem handleFork_frame_spent_output (forkHeight : Nat) (ctx : ProcessingContext)
    (syncedBlocks : List (Nat × SyncedBlockInfo))
    (blockCheckpoints : List (Nat × String)) (kv : String × WalletOutput)
    (nowSec : Nat) (hmem : kv ∈ ctx.outputs) (hold : kv.2.blockHeight < forkHeight)
    (hspent : jsTruthyNum kv.2.spentHeight = true) :
    kv ∈ (handleFork forkHeight ctx syncedBlocks blockCheckpoints).1.outputs ∧
    recalculateBalances (handleFork forkHeight ctx syncedBlocks blockCheckpoints).1 nowSec
      = recalculateBalances
          { (handleFork forkHeight ctx syncedBlocks blockCheckpoints).1 with
            outputs :=
              ((handleFork forkHeight ctx syncedBlocks blockCheckpoints).1.outputs).erase kv }
          nowSec := by
  constructor
  · unfold handleFork
    simp only [List.mem_filter, decide_eq_true_eq]
    exact ⟨hmem, hold⟩
  · unfold recalculateBalances
    exact balanceFold_erase_spent _ _ _ kv hspent _ ⟨0, 0, 0⟩

theorem handleFork_frame_spent_output_witness :
    ("t:0", outputExample) ∈ (handleFork 5 ctxExample [] []).1.outputs ∧
    recalculateBalances (handleFork 5 ctxExample [] []).1 0
      = recalculateBalances
          { (handleFork 5 ctxExample [] []).1 with
            outputs := ((handleFork 5 ctxExample [] []).1.outputs).erase
              ("t:0", outputExample) } 0 :=
  handleFork_frame_spent_output 5 ctxExample [] [] ("t:0", outputExample) 0
    (by decide) (by decide) (by decide)

/-! ## Staking selector (staking.js) -/

/-- Spendable filter used by the staking helpers: unspent (JS truthiness),
mature (`blockHeight <= currentHeight - maturityBlocks`, over integers), and
`unlockTime === 0`. -/
def spendableForStaking (outputs : List WalletOutput)
    (currentHeight maturityBlocks : Nat) : List WalletOutput :=
  outputs.filter (fun o =>
    (!jsTruthyNum o.spentHeight)
      && decide ((o.blockHeight : Int) ≤ (currentHeight : Int) - (maturityBlocks : Int))
      && (o.unlockTime == 0))

/-- hasPreciseStakingOutputs from staking.js: an exact-amount spendable
output, an exact-fee spendable output of a different amount, and at least
one fee output not sharing (transactionHash, transactionIndex) with any
amount output. -/
def hasPreciseStakingOutputs (amount : Nat) (outputs : List WalletOutput)
    (currentHeight currentFee maturityBlocks : Nat) : Bool :=
  if (spendableForStaking outputs currentHeight maturityBlocks).any
        (fun o => o.amount == amount)
      && (spendableForStaking outputs currentHeight maturityBlocks).any
        (fun o => o.amount == currentFee && o.amount != amount) then
    ((spendableForStaking outputs currentHeight maturityBlocks).filter
        (fun o => o.amount == currentFee && o.amount != amount)).any (fun fe =>
      !(((spendableForStaking outputs currentHeight maturityBlocks).filter
          (fun o => o.amount == amount)).any (fun am =>
        am.transactionHash == fe.transactionHash
          && am.transactionIndex == fe.transactionIndex)))
  else false

/-- Specification predicate for C8 as worded: some single transaction holds
both an unspent mature unlocked output of exactly the stake amount and a
distinct such output of exactly the fee. -/
def specSameTxPreciseStakingPair (amount : Nat) (outputs : List WalletOutput)
    (currentHeight currentFee maturityBlocks : Nat) : Prop :=
  ∃ o1 ∈ spendableForStaking outputs currentHeight maturityBlocks,
    ∃ o2 ∈ spendableForStaking outputs currentHeight maturityBlocks,
      o1.amount = amount ∧ o2.amount = currentFee ∧
      o1.transactionHash = o2.transactionHash ∧ o1 ≠ o2

/-- C8 (amended): hasPreciseStakingOutputs is true iff some spendable output
has exactly the stake amount, and some spendable output has exactly the fee
with fee ≠ stake amount and shares its (transactionHash, transactionIndex)
pair with no spendable stake-amount output.  (The source demands the fee
output come from a different transaction, not the same one.) -/
theorem hasPreciseStakingOutputs_iff (amount : Nat) (outputs : List WalletOutput)
    (currentHeight currentFee maturityBlocks : Nat) :
    hasPreciseStakingOutputs amount outputs currentHeight currentFee maturityBlocks = true ↔
      ((∃ o1 ∈ spendableForStaking outputs currentHeight maturityBlocks,
          o1.amount = amount) ∧
       ∃ o2 ∈ spendableForStaking outputs currentHeight maturityBlocks,
         o2.amount = currentFee ∧ currentFee ≠ amount ∧
         ∀ o1 ∈ spendableForStaking outputs currentHeight maturityBlocks,
           o1.amount = amount →
           ¬(o1.transactionHash = o2.transactionHash
              ∧ o1.transactionIndex = o2.transactionIndex)) := by
  unfold hasPreciseStakingOutputs
  by_cases hc : ((spendableForStaking outputs currentHeight maturityBlocks).any
        (fun o => o.amount == amount)
      && (spendableForStaking outputs currentHeight maturityBlocks).any
        (fun o => o.amount == currentFee && o.amount != amount)) = true
  · rw [if_pos hc]
    simp only [Bool.and_eq_true, List.any_eq_true, beq_iff_eq, bne_iff_ne,
      List.mem_filter, Bool.not_eq_true', List.any_eq_false] at hc ⊢
    constructor
    · intro h
      obtain ⟨fe, ⟨hfe_mem, hfe_amt, hfe_ne⟩, hfe_far⟩ := h
      refine ⟨hc.1, fe, hfe_mem, hfe_amt, by rw [← hfe_amt]; exact hfe_ne, ?_⟩
      intro o1 ho1 ho1amt hpair
      exact hfe_far o1 ⟨ho1, ho1amt⟩ hpair
    · intro hr
      obtain ⟨h1, o2, ho2, ho2amt, hne, hfar⟩ := hr
      refine ⟨o2, ⟨ho2, ho2amt, by rw [ho2amt]; exact hne⟩, ?_⟩
      intro am ham
      exact hfar am ham.1 ham.2
  · rw [if_neg hc]
    simp only [Bool.false_eq_true, false_iff]
    intro hr
    obtain ⟨⟨o1, ho1, ho1amt⟩, o2, ho2, ho2amt, hne, hrest⟩ := hr
    apply hc
    simp only [Bool.and_eq_true, List.any_eq_true, beq_iff_eq, bne_iff_ne]
    exact ⟨⟨o1, ho1, ho1amt⟩, o2, ho2, ho2amt, by rw [ho2amt]; exact hne⟩

def stakingOutputA : WalletOutput :=
  { key := "k", amount := 100, blockHeight := 0, timestamp := 0,
    transactionHash := "aa", transactionIndex := 0, outputIndex := some 0,
    unlockTime := 0, spentHeight := none, isStaking := false }

def stakingOutputB : WalletOutput :=
  { key := "k", amount := 10, blockHeight := 0, timestamp := 0,
    transactionHash := "bb", transactionIndex := 0, outputIndex := some 0,
    unlockTime := 0, spentHeight := none, isStaking := false }

/-- C8 counterexample: with a 100-unit output in transaction "aa" and a
10-unit output in a different transaction "bb", hasPreciseStakingOutputs
returns true although no single transaction contains both required outputs. -/
theorem hasPreciseStakingOutputs_claim_counterexample :
    hasPreciseStakingOutputs 100 [stakingOutputA, stakingOutputB] 20 10 10 = true ∧
    ¬ specSameTxPreciseStakingPair 100 [stakingOutputA, stakingOutputB] 20 10 10 := by
  constructor
  · decide
  · unfold specSameTxPreciseStakingPair
    decide

/-! ## Preparation transaction builder (staking.js) -/

structure SelectedInput where
  output : WalletOutput
  transactionHash : String
  outputIndex : Option Nat
  publicKey : String
  privateKey : String
deriving DecidableEq

/-- Output construction of buildPreparationTransactionHex: totalInput from
the selected inputs, three outputs `[amount, currentFee, change]` all paid
to `outputKey`, with `change = totalInput - amount - currentFee - MIN_FEE`;
a negative change aborts the build. -/
def buildPreparationOutputs (amount currentFee : Nat) (inputs : List SelectedInput)
    (outputKey : String) : Option (List (String × Nat)) :=
  if ((inputs.map (fun i => i.output.amount)).sum : Int)
      - (amount : Int) - (currentFee : Int) - (MIN_FEE : Int) < 0 then none
  else some [(outputKey, amount), (outputKey, currentFee),
    (outputKey, (((inputs.map (fun i => i.output.amount)).sum : Int)
      - (amount : Int) - (currentFee : Int) - (MIN_FEE : Int)).toNat)]

/-- C9 (amended): funding the preparation build for stake 5_000_000_000 and
staking fee 1000 from a single 10_000_000_000 UTXO yields the three
self-outputs [5_000_000_000, 1000, 4_999_998_000]; the preparation fee
MIN_FEE = 1000 is also deducted, so the change is 4_999_998_000. -/
theorem buildPreparationOutputs_stake_scenario (outputKey : String)
    (inp : SelectedInput) (h : inp.output.amount = 10000000000) :
    buildPreparationOutputs 5000000000 1000 [inp] outputKey
      = some [(outputKey, 5000000000), (outputKey, 1000), (outputKey, 4999998000)] := by
  unfold buildPreparationOutputs
  simp [h, MIN_FEE]

def prepUtxoExample : WalletOutput :=
  { key := "k", amount := 10000000000, blockHeight := 1, timestamp := 0,
    transactionHash := "p", transactionIndex := 0, outputIndex := some 0,
    unlockTime := 0, spentHeight := none, isStaking := false }

def prepInputExample : SelectedInput :=
  { output := prepUtxoExample, transactionHash := "p", outputIndex := some 0,
    publicKey := "k", privateKey := "s" }

theorem buildPreparationOutputs_stake_scenario_witness :
    buildPreparationOutputs 5000000000 1000 [prepInputExample] ("selfKey")
      = some [("selfKey", 5000000000), ("selfKey", 1000), ("selfKey", 4999998000)] :=
  buildPreparationOutputs_stake_scenario ("selfKey") prepInputExample (by decide)

/-- C9 counterexample: the claimed change output of 9_999_997_000 is not
what the builder produces from a 10_000_000_000 input (that would exceed the
input total); the third output is 4_999_998_000. -/
theorem buildPreparationOutputs_claim_counterexample :
    buildPreparationOutputs 5000000000 1000 [prepInputExample] ("selfKey")
      ≠ some [("selfKey", 5000000000), ("selfKey", 1000), ("selfKey", 9999997000)] := by
  decide

/-! ## Ed25519 Schnorr signatures and key images (crypto module)

The byte-level scalar handling (`scalarToBigInt`, `bigIntToScalar`,
`scReduce32`, `hashToScalar`) is embedded directly from the source.
Modelled from the spec: the curve group operations of the external
`@noble/ed25519` library and the external Keccak-256 digest are the missing
parts; per §4.1 all points handled here are scalar multiples of the
basepoint G with standard group operations, so points are identified with
their discrete logarithm in `ZMod CURVE_ORDER`, and the compressed point
encoding and the digest function are abstract fields of `CryptoModel`. -/

def CURVE_ORDER : Nat :=
  0x1000000000000000000000000000000014def9dea2f79cd65812631a5cf5d3ed

theorem CURVE_ORDER_pos : 0 < CURVE_ORDER := by norm_num [CURVE_ORDER]

instance : NeZero CURVE_ORDER := ⟨by norm_num [CURVE_ORDER]⟩

theorem CURVE_ORDER_lt_two_pow : CURVE_ORDER < 2 ^ 256 := by norm_num [CURVE_ORDER]

/-- scalarToBigInt: `num |= BigInt(scalar[i]) << (8*i)` over the first 32
bytes, little-endian. -/
def scalarToBigInt (bs : List Nat) : Nat :=
  (List.range 32).foldl (fun num i => num ||| (bs.getD i 0) <<< (8 * i)) 0

/-- bigIntToScalar: `result[i] = (num >> (8*i)) & 0xff` for 32 bytes. -/
def bigIntToScalar (n : Nat) : List Nat :=
  (List.range 32).map (fun i => (n >>> (8 * i)) &&& 255)

/-- scReduce32: requires a 64-byte buffer, interprets the low 32 bytes as a
little-endian integer and reduces it modulo the curve order. -/
def scReduce32 (input : List Nat) : Option (List Nat) :=
  if input.length ≠ 64 then none
  else some (bigIntToScalar (scalarToBigInt input % CURVE_ORDER))

/-- Partial little-endian value of the first `n` byte positions. -/
def leDigitsVal (bs : List Nat) : Nat → Nat
  | 0 => 0
  | n + 1 => leDigitsVal bs n + bs.getD n 0 * 2 ^ (8 * n)

theorem leDigitsVal_lt (bs : List Nat) (hb : ∀ i, bs.getD i 0 < 256) :
    ∀ n, leDigitsVal bs n < 2 ^ (8 * n) := by
  intro n
  induction n with
  | zero => simp [leDigitsVal]
  | succ m ih =>
    have h2 := hb m
    have hpow : (2 : Nat) ^ (8 * (m + 1)) = 2 ^ (8 * m) * 256 := by
      rw [show 8 * (m + 1) = 8 * m + 8 by ring, pow_add]
      norm_num
    simp only [leDigitsVal, hpow]
    nlinarith [pow_pos (show 0 < 2 by omega) (8 * m)]

theorem scalarToBigInt_eq_leDigitsVal (bs : List Nat) (hb : ∀ i, bs.getD i 0 < 256) :
    scalarToBigInt bs = leDigitsVal bs 32 := by
  have key : ∀ n, (List.range n).foldl (fun num i => num ||| (bs.getD i 0) <<< (8 * i)) 0
      = leDigitsVal bs n := by
    intro n
    induction n with
    | zero => simp [leDigitsVal]
    | succ m ih =>
      rw [List.range_succ, List.foldl_append, ih]
      simp only [List.foldl_cons, List.foldl_nil, leDigitsVal]
      rw [Nat.shiftLeft_eq]
      have hlt := leDigitsVal_lt bs hb m
      have hor := Nat.mul_add_lt_is_or hlt (bs.getD m 0)
      rw [Nat.lor_comm]
      have hcomm : bs.getD m 0 * 2 ^ (8 * m) = 2 ^ (8 * m) * bs.getD m 0 := by ring
      rw [hcomm]
      omega
  exact key 32

theorem scalarToBigInt_congr (bs1 bs2 : List Nat)
    (h : ∀ i, i < 32 → bs1.getD i 0 = bs2.getD i 0) :
    scalarToBigInt bs1 = scalarToBigInt bs2 := by
  have key : ∀ n, n ≤ 32 →
      (List.range n).foldl (fun num i => num ||| (bs1.getD i 0) <<< (8 * i)) 0
        = (List.range n).foldl (fun num i => num ||| (bs2.getD i 0) <<< (8 * i)) 0 := by
    intro n
    induction n with
    | zero => intro _; rfl
    | succ m ih =>
      intro hm
      rw [List.range_succ, List.foldl_append, List.foldl_append,
        ih (by omega)]
      simp only [List.foldl_cons, List.foldl_nil]
      rw [h m (by omega)]
  exact key 32 le_rfl

theorem getD_bigIntToScalar (v i : Nat) (h : i < 32) :
    (bigIntToScalar v).getD i 0 = v / 2 ^ (8 * i) % 256 := by
  unfold bigIntToScalar
  rw [List.getD_eq_getElem?_getD, List.getElem?_map]
  simp [List.getElem?_range h]
  rw [Nat.shiftRight_eq_div_pow]
  have hmask := Nat.and_pow_two_sub_one_eq_mod (v / 2 ^ (8 * i)) 8
  norm_num at hmask
  exact hmask

theorem bigIntToScalar_length (v : Nat) : (bigIntToScalar v).length = 32 := by
  simp [bigIntToScalar]

theorem bigIntToScalar_getD_lt (v : Nat) : ∀ i, (bigIntToScalar v).getD i 0 < 256 := by
  intro i
  by_cases h : i < 32
  · rw [getD_bigIntToScalar v i h]
    exact Nat.mod_lt _ (by omega)
  · rw [List.getD_eq_default]
    · omega
    · rw [bigIntToScalar_length]
      omega

theorem scalarToBigInt_bigIntToScalar (v : Nat) (hv : v < 2 ^ 256) :
    scalarToBigInt (bigIntToScalar v) = v := by
  rw [scalarToBigInt_eq_leDigitsVal _ (bigIntToScalar_getD_lt v)]
  have key : ∀ n, n ≤ 32 → leDigitsVal (bigIntToScalar v) n = v % 2 ^ (8 * n) := by
    intro n
    induction n with
    | zero => intro _; simp [leDigitsVal, Nat.mod_one]
    | succ m ih =>
      intro hm
      simp only [leDigitsVal]
      rw [ih (by omega), getD_bigIntToScalar v m (by omega)]
      have h1 : (2 : Nat) ^ (8 * (m + 1)) = 2 ^ (8 * m) * 256 := by
        rw [show 8 * (m + 1) = 8 * m + 8 by ring, pow_add]
        norm_num
      rw [h1, Nat.mod_mul]
      ring
  rw [key 32 le_rfl]
  rw [show 8 * 32 = 256 by norm_num]
  exact Nat.mod_eq_of_lt hv

theorem bigIntToScalar_mem_lt (v : Nat) : ∀ b ∈ bigIntToScalar v, b < 256 := by
  intro b hb
  unfold bigIntToScalar at hb
  obtain ⟨i, hi, hfb⟩ := List.mem_map.mp hb
  rw [← hfb]
  have h := Nat.and_pow_two_sub_one_eq_mod ((v >>> (8 * i))) 8
  norm_num at h
  rw [h]
  exact Nat.mod_lt _ (by omega)

/-- Abstract interface for the external cryptographic primitives.  Modelled
from the spec: `keccak` is the 32-byte Keccak-256 digest; points of the
prime-order subgroup generated by G are identified with their discrete
logarithm in `ZMod CURVE_ORDER`; `encodePoint` is the 32-byte compressed
encoding (`toRawBytes`) and `decodePoint` its partial inverse
(`Point.fromHex`). -/
structure CryptoModel where
  keccak : List Nat → List Nat
  keccak_len : ∀ data, (keccak data).length = 32
  keccak_bytes : ∀ data, ∀ b ∈ keccak data, b < 256
  encodePoint : ZMod CURVE_ORDER → List Nat
  encodePoint_len : ∀ p, (encodePoint p).length = 32
  decodePoint : List Nat → Option (ZMod CURVE_ORDER)
  decode_encode : ∀ p, decodePoint (encodePoint p) = some p

/-- hashToScalar: Keccak-256 the input, fill BOTH halves of a 64-byte buffer
with the 32-byte digest, and scReduce32 the buffer. -/
def hashToScalar (M : CryptoModel) (data : List Nat) : Option (List Nat) :=
  scReduce32 (M.keccak data ++ M.keccak data)

/-- JavaScript BigInt `%` (truncated) followed by the conditional `+ b`
applied on a negative remainder, as in the signing code. -/
def jsBigIntMod (a b : Int) : Int :=
  if a.tmod b < 0 then a.tmod b + b else a.tmod b

theorem jsBigIntMod_eq_emod (a b : Int) (hb : 0 < b) (ha : -b < a) :
    jsBigIntMod a b = a % b := by
  unfold jsBigIntMod
  by_cases hneg : a < 0
  · have htd : a.tdiv b = 0 := by
      have h1 : (-a).tdiv b = 0 := Int.tdiv_eq_zero_of_lt (by omega) (by omega)
      have h2 : (-a).tdiv b = -(a.tdiv b) := Int.neg_tdiv a b
      omega
    have htm : a.tmod b = a := by
      rw [Int.tmod_def, htd]
      ring
    rw [htm, if_pos (by omega)]
    have hmod : (a + b) % b = a % b := by
      have := Int.add_mul_emod_self_left a b 1
      simpa using this
    rw [← hmod]
    rw [Int.emod_eq_of_lt (by omega) (by omega)]
  · have h0 : 0 ≤ a := by omega
    rw [Int.tmod_eq_emod h0 (by omega)]
    rw [if_neg (by have := Int.emod_nonneg a (by omega : b ≠ 0); omega)]

/-- generateSchnorrSignature: draw nonce k, commit R = k·G, challenge
c = H(h ‖ P ‖ R), response s = k − c·sec mod ℓ, signature c ‖ s.  The nonce
bytes (the randomScalar draw) are passed explicitly. -/
def generateSchnorrSignature (M : CryptoModel)
    (prefixHash publicKey privateKey nonce : List Nat) : Option (List Nat) :=
  if prefixHash.length ≠ 32 then none
  else if publicKey.length ≠ 32 then none
  else if privateKey.length ≠ 32 then none
  else
    match hashToScalar M (prefixHash ++ publicKey
        ++ M.encodePoint ((scalarToBigInt nonce : Nat) : ZMod CURVE_ORDER)) with
    | none => none
    | some c =>
      some (c ++ bigIntToScalar
        (jsBigIntMod ((scalarToBigInt nonce : Int)
            - ((scalarToBigInt c * scalarToBigInt privateKey % CURVE_ORDER : Nat) : Int))
          (CURVE_ORDER : Int)).toNat)

/-- verifySchnorrSignature: split c ‖ s, recompute R' = s·G + c·P, rebuild
the challenge and compare it bytewise with c. -/
def verifySchnorrSignature (M : CryptoModel)
    (prefixHash publicKey signature : List Nat) : Option Bool :=
  if signature.length ≠ 64 then none
  else
    match M.decodePoint publicKey with
    | none => none
    | some pub =>
      match hashToScalar M (prefixHash ++ publicKey ++ M.encodePoint
          (((scalarToBigInt (signature.drop 32) : Nat) : ZMod CURVE_ORDER)
            + ((scalarToBigInt (signature.take 32) : Nat) : ZMod CURVE_ORDER) * pub)) with
      | none => none
      | some expectedC => some (decide (signature.take 32 = expectedC))

/-- generateKeyImage: Keccak-256 the public key, hashToScalar THAT digest,
multiply the basepoint by it and then by the private key. -/
def generateKeyImage (M : CryptoModel) (publicKey privateKey : List Nat) :
    Option (List Nat) :=
  if publicKey.length ≠ 32 then none
  else if privateKey.length ≠ 32 then none
  else
    match hashToScalar M (M.keccak publicKey) with
    | none => none
    | some hashScalar =>
      some (M.encodePoint (((scalarToBigInt hashScalar : Nat) : ZMod CURVE_ORDER)
        * ((scalarToBigInt privateKey : Nat) : ZMod CURVE_ORDER)))

/-- Key image as the claim words it: hash_to_scalar applied directly to the
32 bytes of the public key, then scalar-multiplied by the private key. -/
def specKeyImage (M : CryptoModel) (publicKey privateKey : List Nat) :
    Option (List Nat) :=
  (hashToScalar M publicKey).map (fun hsc =>
    M.encodePoint (((scalarToBigInt hsc : Nat) : ZMod CURVE_ORDER)
      * ((scalarToBigInt privateKey : Nat) : ZMod CURVE_ORDER)))

/-- C4: hashToScalar coincides with reduce32 of the digest zero-extended to
64 bytes: scReduce32 reads only the low 32 bytes of its buffer, so the
duplicated digest in the high half is inert. -/
theorem hashToScalar_eq_zero_extended (M : CryptoModel) (buf : List Nat) :
    hashToScalar M buf = scReduce32 (M.keccak buf ++ List.replicate 32 0) := by
  unfold hashToScalar scReduce32
  have hlen := M.keccak_len buf
  have hl1 : (M.keccak buf ++ M.keccak buf).length = 64 := by simp [hlen]
  have hl2 : (M.keccak buf ++ List.replicate 32 0).length = 64 := by simp [hlen]
  rw [if_neg (by omega), if_neg (by omega)]
  have heq : scalarToBigInt (M.keccak buf ++ M.keccak buf)
      = scalarToBigInt (M.keccak buf ++ List.replicate 32 0) := by
    apply scalarToBigInt_congr
    intro i hi
    rw [List.getD_append _ _ _ _ (by omega), List.getD_append _ _ _ _ (by omega)]
  rw [heq]

theorem hashToScalar_eq (M : CryptoModel) (data : List Nat) :
    hashToScalar M data = some (bigIntToScalar
      (scalarToBigInt (M.keccak data ++ M.keccak data) % CURVE_ORDER)) := by
  unfold hashToScalar scReduce32
  rw [if_neg]
  simp [List.length_append, M.keccak_len]

theorem intEmod_toNat_cast (a : Int) :
    (((a % ((CURVE_ORDER : Nat) : Int)).toNat : Nat) : ZMod CURVE_ORDER)
      = (a : ZMod CURVE_ORDER) := by
  have hnn : 0 ≤ a % ((CURVE_ORDER : Nat) : Int) :=
    Int.emod_nonneg _ (by exact_mod_cast CURVE_ORDER_pos.ne')
  have h1 : (((a % ((CURVE_ORDER : Nat) : Int)).toNat : Nat) : Int)
      = a % ((CURVE_ORDER : Nat) : Int) := Int.toNat_of_nonneg hnn
  calc (((a % ((CURVE_ORDER : Nat) : Int)).toNat : Nat) : ZMod CURVE_ORDER)
      = ((((a % ((CURVE_ORDER : Nat) : Int)).toNat : Nat) : Int) : ZMod CURVE_ORDER) :=
        (Int.cast_natCast _).symm
    _ = ((a % ((CURVE_ORDER : Nat) : Int) : Int) : ZMod CURVE_ORDER) := by rw [h1]
    _ = (a : ZMod CURVE_ORDER) := ZMod.intCast_mod a CURVE_ORDER

/-- C1: for a keypair (s, P) with canonical s and P = s·G, a 32-byte
message hash and a canonical signer-drawn nonce, verifySchnorrSignature
accepts the signature produced by generateSchnorrSignature. -/
theorem schnorr_sign_verify_roundtrip (M : CryptoModel)
    (prefixHash publicKey privateKey nonce : List Nat)
    (hh : prefixHash.length = 32)
    (hsl : privateKey.length = 32)
    (hcanon : scalarToBigInt privateKey < CURVE_ORDER)
    (hpk : publicKey = M.encodePoint ((scalarToBigInt privateKey : Nat) : ZMod CURVE_ORDER))
    (hk : scalarToBigInt nonce < CURVE_ORDER) :
    (generateSchnorrSignature M prefixHash publicKey privateKey nonce).bind
      (fun sig => verifySchnorrSignature M prefixHash publicKey sig) = some true := by
  have hpl : publicKey.length = 32 := by rw [hpk]; exact M.encodePoint_len _
  unfold generateSchnorrSignature
  rw [if_neg (by omega), if_neg (by omega), if_neg (by omega), hashToScalar_eq]
  rw [Option.some_bind]
  unfold verifySchnorrSignature
  rw [if_neg (by
    rw [List.length_append, bigIntToScalar_length, bigIntToScalar_length]
    omega)]
  rw [hpk, M.decode_encode]
  rw [List.take_left' (bigIntToScalar_length _), List.drop_left' (bigIntToScalar_length _)]
  dsimp only
  set secV := scalarToBigInt privateKey with hsecV
  set kV := scalarToBigInt nonce with hkV
  set S0 := prefixHash ++ M.encodePoint ((secV : Nat) : ZMod CURVE_ORDER)
    ++ M.encodePoint ((kV : Nat) : ZMod CURVE_ORDER) with hS0
  set D := scalarToBigInt (M.keccak S0 ++ M.keccak S0) with hD
  have hDlt : D % CURVE_ORDER < 2 ^ 256 :=
    lt_trans (Nat.mod_lt _ CURVE_ORDER_pos) CURVE_ORDER_lt_two_pow
  have hcv : scalarToBigInt (bigIntToScalar (D % CURVE_ORDER)) = D % CURVE_ORDER :=
    scalarToBigInt_bigIntToScalar _ hDlt
  rw [hcv]
  have hclt : D % CURVE_ORDER * secV % CURVE_ORDER < CURVE_ORDER :=
    Nat.mod_lt _ CURVE_ORDER_pos
  have hjs : jsBigIntMod ((kV : Int) - ((D % CURVE_ORDER * secV % CURVE_ORDER : Nat) : Int))
      ((CURVE_ORDER : Nat) : Int)
      = ((kV : Int) - ((D % CURVE_ORDER * secV % CURVE_ORDER : Nat) : Int))
          % ((CURVE_ORDER : Nat) : Int) := by
    apply jsBigIntMod_eq_emod
    · exact_mod_cast CURVE_ORDER_pos
    · have := hclt
      omega
  rw [hjs]
  have hemod_nonneg : 0 ≤ ((kV : Int) - ((D % CURVE_ORDER * secV % CURVE_ORDER : Nat) : Int))
      % ((CURVE_ORDER : Nat) : Int) :=
    Int.emod_nonneg _ (by exact_mod_cast CURVE_ORDER_pos.ne')
  have hemod_lt : ((kV : Int) - ((D % CURVE_ORDER * secV % CURVE_ORDER : Nat) : Int))
      % ((CURVE_ORDER : Nat) : Int) < ((CURVE_ORDER : Nat) : Int) :=
    Int.emod_lt_of_pos _ (by exact_mod_cast CURVE_ORDER_pos)
  have hsv : scalarToBigInt (bigIntToScalar
      ((((kV : Int) - ((D % CURVE_ORDER * secV % CURVE_ORDER : Nat) : Int))
        % ((CURVE_ORDER : Nat) : Int)).toNat))
      = (((kV : Int) - ((D % CURVE_ORDER * secV % CURVE_ORDER : Nat) : Int))
        % ((CURVE_ORDER : Nat) : Int)).toNat := by
    apply scalarToBigInt_bigIntToScalar
    have h1 : (((kV : Int) - ((D % CURVE_ORDER * secV % CURVE_ORDER : Nat) : Int))
        % ((CURVE_ORDER : Nat) : Int)).toNat < CURVE_ORDER := by omega
    exact lt_trans h1 CURVE_ORDER_lt_two_pow
  rw [hsv]
  have hpt : (((((kV : Int) - ((D % CURVE_ORDER * secV % CURVE_ORDER : Nat) : Int))
          % ((CURVE_ORDER : Nat) : Int)).toNat : Nat) : ZMod CURVE_ORDER)
        + ((D % CURVE_ORDER : Nat) : ZMod CURVE_ORDER) * ((secV : Nat) : ZMod CURVE_ORDER)
      = ((kV : Nat) : ZMod CURVE_ORDER) := by
    rw [intEmod_toNat_cast]
    push_cast [ZMod.natCast_mod]
    ring
  rw [hpt]
  rw [← hS0, hashToScalar_eq, ← hD]
  dsimp only
  simp


/-- Concrete instantiation of the crypto interface used to witness the
signature theorems: a toy injective digest and the little-endian value
encoding of the discrete logarithm. -/
def toyKeccak (data : List Nat) : List Nat :=
  bigIntToScalar (leBytesVal data + 1)

def toyModel : CryptoModel where
  keccak := toyKeccak
  keccak_len := fun _data => bigIntToScalar_length _
  keccak_bytes := fun _data => bigIntToScalar_mem_lt _
  encodePoint := fun p => bigIntToScalar p.val
  encodePoint_len := fun _p => bigIntToScalar_length _
  decodePoint := fun bs =>
    if scalarToBigInt bs < CURVE_ORDER ∧ bs = bigIntToScalar (scalarToBigInt bs)
    then some ((scalarToBigInt bs : Nat) : ZMod CURVE_ORDER) else none
  decode_encode := by
    intro p
    have hval : p.val < CURVE_ORDER := ZMod.val_lt p
    have hround : scalarToBigInt (bigIntToScalar p.val) = p.val :=
      scalarToBigInt_bigIntToScalar p.val (lt_trans hval CURVE_ORDER_lt_two_pow)
    simp only [hround]
    rw [if_pos ⟨hval, trivial⟩]
    rw [ZMod.natCast_zmod_val]

/-- C5 (amended): generateKeyImage(P, s) is the compressed encoding of
s · (hash_to_scalar(keccak256(P)) · G) — the construction the claim words
with hash_to_scalar applied directly to P is instead applied to the
Keccak-256 digest of P. -/
theorem generateKeyImage_eq (M : CryptoModel) (publicKey privateKey : List Nat)
    (hP : publicKey.length = 32) (hs : privateKey.length = 32) :
    generateKeyImage M publicKey privateKey
      = specKeyImage M (M.keccak publicKey) privateKey := by
  unfold generateKeyImage specKeyImage
  rw [if_neg (by omega), if_neg (by omega)]
  cases hts : hashToScalar M (M.keccak publicKey) with
  | none => rfl
  | some hsc => rfl

theorem generateKeyImage_eq_witness :
    generateKeyImage toyModel (List.replicate 32 0) (bigIntToScalar 1)
      = specKeyImage toyModel (toyModel.keccak (List.replicate 32 0)) (bigIntToScalar 1) :=
  generateKeyImage_eq toyModel (List.replicate 32 0) (bigIntToScalar 1)
    (by decide) (by decide)

set_option maxRecDepth 10000 in
/-- C5 counterexample: with a concrete crypto model the produced key image
differs from s · (hash_to_scalar(P) · G), because the code hashes P once
more before hash_to_scalar. -/
theorem generateKeyImage_claim_counterexample :
    generateKeyImage toyModel (List.replicate 32 0) (bigIntToScalar 1)
      ≠ specKeyImage toyModel (List.replicate 32 0) (bigIntToScalar 1) := by
  decide

theorem schnorr_sign_verify_roundtrip_witness :
    (generateSchnorrSignature toyModel (List.replicate 32 0)
        (toyModel.encodePoint ((scalarToBigInt (bigIntToScalar 1) : Nat) : ZMod CURVE_ORDER))
        (bigIntToScalar 1) (bigIntToScalar 1)).bind
      (fun sig => verifySchnorrSignature toyModel (List.replicate 32 0)
        (toyModel.encodePoint ((scalarToBigInt (bigIntToScalar 1) : Nat) : ZMod CURVE_ORDER))
        sig) = some true :=
  schnorr_sign_verify_roundtrip toyModel (List.replicate 32 0)
    (toyModel.encodePoint ((scalarToBigInt (bigIntToScalar 1) : Nat) : ZMod CURVE_ORDER))
    (bigIntToScalar 1) (bigIntToScalar 1)
    (by decide) (by decide) (by decide) rfl (by decide)
